import Mathlib

/-!
Verification of the bounded concurrent fetch-and-publish pipeline in src/app.py.

The development has two layers.

The first layer is a sequential, pure embedding of the individual operations:
the admission route (add_item, app.py:127-144), the execution body of one job
(download_workshop_item, app.py:56-89), the packaging step
(zip_workshop_item, app.py:92-107), and the status route (app.py:146-148).
Statuses are the literal strings the code writes into the download_status
dict.  The filesystem and the external collaborators (steamcmd, the supabase
upload) are reflected as explicit boolean observations: every os.path check
reads one, the external tool and the upload either succeed or fail.  In the
code the only representation of a publish failure is an exception escaping
the try block (only subprocess.CalledProcessError is caught, app.py:84), so
the body also reports whether it terminated normally or by an uncaught
exception that propagated out of the with-statements.

The second layer is a labelled small-step transition system over the shared
process state (download_status, user_queues, the counting semaphore and the
set of spawned download threads), whose atomic transitions are exactly the
shared-state accesses of the code: the add_item critical section, semaphore
acquire and release, the individual writes to download_status, and the queue
discard under user_lock.  Invariant claims are settled by induction over the
reachability relation, and concrete interleavings are exhibited through an
executable trace interpreter that is proved sound for the step relation.
-/

/-- Workshop item identifier: the wid string taken from the request form.
The route returns early ("No Workshop ID provided", app.py:130-131) when the
form value is missing or empty; both are modelled by the empty string. -/
abbrev Wid := String

/-- Originating client key: request.remote_addr in the code. -/
abbrev ClientId := String

/-- The download_status dict (app.py:43): item identifier to status string,
absent keys meaning the identifier was never seen. -/
abbrev StatusMap := Wid → Option String

/-- The user_queues dict (app.py:44): client key to its set of queued wids.
Python sets are modelled as Finset Wid; an absent key stays absent until
setdefault inserts an empty set. -/
abbrev Queues := ClientId → Option (Finset Wid)

/-- Assignment download_status[wid] = v on the status dict. -/
def upd (m : StatusMap) (wid : Wid) (v : String) : StatusMap :=
  fun w => if w = wid then some v else m w

/-- user_queues.setdefault(user_ip, set()) (app.py:135): inserts an empty
set for a missing key and leaves an existing entry untouched. -/
def setdefaultQ (qs : Queues) (ip : ClientId) : Queues :=
  fun c => if c = ip then some ((qs ip).getD ∅) else qs c

/-- The cleanup block at app.py:87-89: if user_ip in user_queues then
user_queues[user_ip].discard(wid).  A missing client key stays missing. -/
def discardQ (qs : Queues) (ip : ClientId) (wid : Wid) : Queues :=
  fun c => if c = ip then (qs ip).map (fun q => q.erase wid) else qs c

/-- MAX_CONCURRENT_DOWNLOADS = 2 (app.py:48). -/
def MAX_CONCURRENT_DOWNLOADS : Nat := 2

/-- MAX_USER_QUEUE = 3 (app.py:50). -/
def MAX_USER_QUEUE : Nat := 3

/-- The three responses of the /add route, plus the early 400 response for a
missing workshop_id form field (app.py:130-131, 136-139, 144). -/
inductive AdmitResult where
  | badRequest
  | alreadyQueuedOrDone
  | clientQueueFull
  | accepted
deriving DecidableEq, Repr

/-- The admission route add_item (app.py:127-144) as a pure function of the
two shared dicts.  It returns the response, the updated user_queues, and
whether a download thread was started (the Thread(...).start() at
app.py:142-143 happens exactly in the accepted branch).  download_status is
read but never written by this route. -/
def add_item (ds : StatusMap) (qs : Queues) (user_ip : ClientId) (wid : Wid) :
    AdmitResult × Queues × Bool :=
  if wid = "" then (.badRequest, qs, false)
  else
    let qs1 := setdefaultQ qs user_ip
    let queue := (qs1 user_ip).getD ∅
    if wid ∈ queue ∨ (ds wid).isSome then (.alreadyQueuedOrDone, qs1, false)
    else if MAX_USER_QUEUE ≤ queue.card then (.clientQueueFull, qs1, false)
    else (.accepted, fun c => if c = user_ip then some (insert wid queue) else qs1 c, true)

/-- The /status/wid route (app.py:146-148): download_status.get(wid, "Not started"). -/
def status_route (ds : StatusMap) (wid : Wid) : String :=
  (ds wid).getD "Not started"

/-- Local filesystem facts about one item that the code observes or mutates:
whether WORKSHOP_DIR/wid exists (the fetched-result directory, called both
dst and folder_path in the code) and whether WORKSHOP_DIR/wid.zip exists. -/
structure Fs where
  dstExists : Bool
  zipExists : Bool
deriving DecidableEq, Repr

/-- zip_workshop_item (app.py:92-107) as a pure function of the filesystem
facts for the item.  The result is the returned zip path (none models the
Python return None), a flag recording whether the ZipFile construction at
app.py:100-105 actually ran (false when the existing archive is returned at
app.py:96-97 or when nothing is produced), and the updated filesystem. -/
def zip_workshop_item (wid : Wid) (fs : Fs) : Option String × Bool × Fs :=
  if fs.zipExists then (some (wid ++ ".zip"), false, fs)
  else if fs.dstExists then (some (wid ++ ".zip"), true, { fs with zipExists := true })
  else (none, false, fs)

/-- Outcomes of the external collaborators during one execution of the job
body: whether the steamcmd subprocess exits zero (subprocess.run with
check=True raises CalledProcessError otherwise, app.py:65-70), whether the
expected output directory src exists afterwards (app.py:72-73), and whether
the supabase upload call returns without raising (app.py:110-116). -/
structure JobEnv where
  toolOk : Bool
  srcFound : Bool
  uploadOk : Bool
deriving DecidableEq, Repr

/-- Shared process state seen by the sequential model of one job execution. -/
structure SeqState where
  download_status : StatusMap
  user_queues : Queues
  permits : Nat
  fs : Fs

/-- How the execution body terminated: normal return, or an uncaught
exception propagating out of the function (the thread then dies; the
with-statement still releases the semaphore on the way out). -/
inductive JobExit where
  | normal
  | raised
deriving DecidableEq, Repr

/-- download_status[wid] = v inside the sequential model. -/
def setStatus (s : SeqState) (wid : Wid) (v : String) : SeqState :=
  { s with download_status := upd s.download_status wid v }

/-- The tail of the body on every normal exit (app.py:87-89 plus the
with-statement exit): discard wid from the queue of user_ip under user_lock,
then release the semaphore. -/
def finishJob (wid : Wid) (user_ip : ClientId) (s : SeqState) : SeqState × JobExit :=
  ({ s with user_queues := discardQ s.user_queues user_ip wid,
            permits := s.permits + 1 }, .normal)

/-- The execution body download_workshop_item (app.py:56-89) as a pure
function.  The caller (the spawned thread) blocks until a permit is free, so
the function is applied to states with 0 < permits; the with-statement
acquire and release are the permit decrement at entry and the increment on
every exit.  Branches follow the source line by line; the env fields resolve
the three external outcomes.  When the upload raises, only
subprocess.CalledProcessError would be caught (app.py:84), so the exception
escapes: the status update at app.py:78, the rmtree at app.py:81 and the
queue discard at app.py:87-89 are all skipped, while the semaphore is still
released by the with-statement exit. -/
def download_workshop_item (wid : Wid) (user_ip : ClientId) (env : JobEnv)
    (s0 : SeqState) : SeqState × JobExit :=
  let s := { s0 with permits := s0.permits - 1 }
  let s := setStatus s wid "Downloading..."
  if s.fs.dstExists then
    finishJob wid user_ip (setStatus s wid "Already downloaded locally")
  else if env.toolOk = false then
    finishJob wid user_ip (setStatus s wid "SteamCMD failed")
  else if env.srcFound = false then
    finishJob wid user_ip (setStatus s wid "Failed to find downloaded files")
  else
    let s := { s with fs := { s.fs with dstExists := true } }
    let z := zip_workshop_item wid s.fs
    let s := { s with fs := z.2.2 }
    match z.1 with
    | some _ =>
      if env.uploadOk then
        let s := { s with fs := { s.fs with zipExists := false } }
        let s := setStatus s wid "Download complete"
        let s := { s with fs := { s.fs with dstExists := false } }
        finishJob wid user_ip s
      else
        ({ s with permits := s.permits + 1 }, .raised)
    | none =>
      let s := setStatus s wid "Failed to zip files"
      let s := { s with fs := { s.fs with dstExists := false } }
      finishJob wid user_ip s

/-- The status strings that are terminal for a job: every status the body
writes other than the in-progress "Downloading...". -/
def terminalStrings : List String :=
  ["Already downloaded locally", "Download complete", "Failed to zip files",
   "Failed to find downloaded files", "SteamCMD failed"]

/-- Every status string any operation ever writes into download_status. -/
def writtenStrings : List String := "Downloading..." :: terminalStrings

/-- A status map with no entries: no identifier was ever seen. -/
def dsNone : StatusMap := fun _ => none

/-- Queues where client "A" has exactly the item "x" admitted. -/
def qsAx : Queues := fun c => if c = "A" then some ({"x"} : Finset Wid) else none

/-- A starting state for one job: one free permit, client "A" holding "x". -/
def seqStart (fs : Fs) : SeqState :=
  { download_status := dsNone, user_queues := qsAx, permits := 1, fs := fs }

/-- C9 as stated: if the archive already exists it is returned without the
ZipFile construction running; otherwise the archive is built from the local
directory; with no archive and no local directory the result is absent.
The final conjunct is idempotence proper: re-running the packager on the
filesystem it produced returns the same artifact without rebuilding. -/
theorem zip_workshop_item_idempotent (wid : Wid) (fs : Fs) :
    (fs.zipExists = true →
      zip_workshop_item wid fs = (some (wid ++ ".zip"), false, fs)) ∧
    (fs.zipExists = false → fs.dstExists = true →
      zip_workshop_item wid fs =
        (some (wid ++ ".zip"), true, { fs with zipExists := true })) ∧
    (fs.zipExists = false → fs.dstExists = false →
      (zip_workshop_item wid fs).1 = none) ∧
    ((zip_workshop_item wid fs).1.isSome →
      zip_workshop_item wid (zip_workshop_item wid fs).2.2 =
        ((zip_workshop_item wid fs).1, false, (zip_workshop_item wid fs).2.2)) := by
  unfold zip_workshop_item
  cases h1 : fs.zipExists <;> cases h2 : fs.dstExists <;> simp [h1, h2]

/-- Witness for the packager theorem at concrete filesystem states. -/
theorem zip_workshop_item_idempotent_witness :
    zip_workshop_item "7" ⟨false, true⟩ = (some "7.zip", false, ⟨false, true⟩) ∧
    zip_workshop_item "7" ⟨true, false⟩ =
      (some "7.zip", true, { Fs.mk true false with zipExists := true }) ∧
    (zip_workshop_item "7" ⟨false, false⟩).1 = none ∧
    zip_workshop_item "7" (zip_workshop_item "7" ⟨true, false⟩).2.2 =
      ((zip_workshop_item "7" ⟨true, false⟩).1, false,
        (zip_workshop_item "7" ⟨true, false⟩).2.2) :=
  ⟨(zip_workshop_item_idempotent "7" ⟨false, true⟩).1 rfl,
   (zip_workshop_item_idempotent "7" ⟨true, false⟩).2.1 rfl rfl,
   (zip_workshop_item_idempotent "7" ⟨false, false⟩).2.2.1 rfl rfl,
   (zip_workshop_item_idempotent "7" ⟨true, false⟩).2.2.2 (by decide)⟩

/-- C7: re-admitting an identifier whose status is already "Download
complete" is rejected in the dedup branch of add_item (app.py:136-137): the
response is AlreadyQueuedOrDone and no download thread is started (the
returned flag is the Thread(...).start() of app.py:142-143), so the
execution body — and with it the fetch, packaging and publish steps — is
never invoked again for that identifier. -/
theorem readmit_complete_rejected (ds : StatusMap) (qs : Queues)
    (ip : ClientId) (wid : Wid)
    (h1 : ds wid = some "Download complete") (h2 : wid ≠ "") :
    (add_item ds qs ip wid).1 = .alreadyQueuedOrDone ∧
    (add_item ds qs ip wid).2.2 = false := by
  unfold add_item
  simp [h2, h1]

/-- Witness: a concrete registry caching "42" as complete rejects the
re-admission of "42" without spawning a thread. -/
theorem readmit_complete_rejected_witness :
    (add_item (upd dsNone "42" "Download complete") qsAx "B" "42").1 =
      .alreadyQueuedOrDone ∧
    (add_item (upd dsNone "42" "Download complete") qsAx "B" "42").2.2 = false :=
  readmit_complete_rejected (upd dsNone "42" "Download complete") qsAx "B" "42"
    (by decide) (by decide)

/-- Claim C2 as stated: after a tool failure for item x, x is removed from
the originating queue AND a subsequent admission of x is accepted again. -/
def ClaimC2 : Prop :=
  ∀ (s : SeqState) (env : JobEnv) (x : Wid) (ip : ClientId),
    0 < s.permits → env.toolOk = false → s.fs.dstExists = false →
    (∀ q, (download_workshop_item x ip env s).1.user_queues ip = some q → x ∉ q) ∧
    (add_item (download_workshop_item x ip env s).1.download_status
      (download_workshop_item x ip env s).1.user_queues ip x).1 = .accepted

/-- C2 fails on the code: after the job for "x" ends in "SteamCMD failed",
download_status still holds the entry, so the dedup check
`wid in download_status` (app.py:136) rejects the re-admission with
AlreadyQueuedOrDone instead of accepting it. -/
theorem claimC2_false : ¬ ClaimC2 := by
  intro h
  have h2 := (h (seqStart ⟨false, false⟩) ⟨false, true, true⟩ "x" "A"
    (by decide) rfl rfl).2
  exact absurd h2 (by decide)

/-- C2 amended: after a tool failure for x the status is "SteamCMD failed"
and x is removed from the originating queue, but a subsequent admission of x
returns AlreadyQueuedOrDone — the failure outcome is permanently cached in
download_status and does block re-admission of the identifier. -/
theorem failedTool_blocks_readmission (s : SeqState) (env : JobEnv)
    (x : Wid) (ip : ClientId)
    (hp : 0 < s.permits) (ht : env.toolOk = false)
    (hd : s.fs.dstExists = false) (hx : x ≠ "") :
    (download_workshop_item x ip env s).1.download_status x =
      some "SteamCMD failed" ∧
    (∀ q, (download_workshop_item x ip env s).1.user_queues ip = some q → x ∉ q) ∧
    (add_item (download_workshop_item x ip env s).1.download_status
      (download_workshop_item x ip env s).1.user_queues ip x).1 =
      .alreadyQueuedOrDone := by
  obtain ⟨ds, qs0, p, ⟨dst, zip⟩⟩ := s
  obtain ⟨tl, sr, up⟩ := env
  replace hd : dst = false := hd
  replace ht : tl = false := ht
  subst hd ht
  simp only [download_workshop_item, setStatus, finishJob, if_false,
    Bool.false_eq_true]
  refine ⟨by simp [upd], ?_, ?_⟩
  · intro q hq
    simp only [discardQ, if_true, eq_self_iff_true] at hq
    rcases h0 : qs0 ip with _ | q0 <;> simp [h0] at hq
    subst hq; exact Finset.not_mem_erase x q0
  · unfold add_item
    simp [hx, upd]

/-- Witness: the amended C2 at a concrete state in which client "A" has "x"
queued and the tool fails. -/
theorem failedTool_blocks_readmission_witness :
    (download_workshop_item "x" "A" ⟨false, true, true⟩
      (seqStart ⟨false, false⟩)).1.download_status "x" = some "SteamCMD failed" ∧
    (∀ q, (download_workshop_item "x" "A" ⟨false, true, true⟩
      (seqStart ⟨false, false⟩)).1.user_queues "A" = some q → "x" ∉ q) ∧
    (add_item (download_workshop_item "x" "A" ⟨false, true, true⟩
        (seqStart ⟨false, false⟩)).1.download_status
      (download_workshop_item "x" "A" ⟨false, true, true⟩
        (seqStart ⟨false, false⟩)).1.user_queues "A" "x").1 =
      .alreadyQueuedOrDone :=
  failedTool_blocks_readmission (seqStart ⟨false, false⟩) ⟨false, true, true⟩
    "x" "A" (by decide) rfl rfl (by decide)

/-- The queue entry produced by the discard block never contains the
discarded wid. -/
lemma discardQ_not_mem (qs : Queues) (ip : ClientId) (wid : Wid)
    (q : Finset Wid) (h : discardQ qs ip wid ip = some q) : wid ∉ q := by
  simp only [discardQ, if_true, eq_self_iff_true] at h
  rcases h0 : qs ip with _ | q0 <;> simp [h0] at h
  subst h; exact Finset.not_mem_erase wid q0

/-- The body restores the semaphore count on every exit path, normal or
raised: the with-statement releases what it acquired. -/
lemma dwi_permits (wid : Wid) (ip : ClientId) (env : JobEnv) (s : SeqState)
    (hp : 0 < s.permits) :
    (download_workshop_item wid ip env s).1.permits = s.permits := by
  obtain ⟨ds, qs0, p, ⟨dst, zip⟩⟩ := s
  rcases p with _ | p
  · exact absurd (hp : (0 : Nat) < 0) (lt_irrefl 0)
  obtain ⟨tl, sr, up⟩ := env
  cases dst <;> cases tl <;> cases sr <;> cases zip <;> cases up <;>
    simp [download_workshop_item, setStatus, finishJob, zip_workshop_item]

/-- On a normal return the body has run the discard block for its queue. -/
lemma dwi_normal_queue (wid : Wid) (ip : ClientId) (env : JobEnv) (s : SeqState)
    (h : (download_workshop_item wid ip env s).2 = .normal) :
    (download_workshop_item wid ip env s).1.user_queues =
      discardQ s.user_queues ip wid := by
  obtain ⟨ds, qs0, p, ⟨dst, zip⟩⟩ := s
  obtain ⟨tl, sr, up⟩ := env
  cases dst <;> cases tl <;> cases sr <;> cases zip <;> cases up <;>
    first
      | (refine absurd h ?_
         simp [download_workshop_item, setStatus, finishJob, zip_workshop_item]
         done)
      | simp [download_workshop_item, setStatus, finishJob, zip_workshop_item]

/-- On a raised exit the discard block was skipped: user_queues is exactly
what it was when the body started. -/
lemma dwi_raised_queue (wid : Wid) (ip : ClientId) (env : JobEnv) (s : SeqState)
    (h : (download_workshop_item wid ip env s).2 = .raised) :
    (download_workshop_item wid ip env s).1.user_queues = s.user_queues := by
  obtain ⟨ds, qs0, p, ⟨dst, zip⟩⟩ := s
  obtain ⟨tl, sr, up⟩ := env
  cases dst <;> cases tl <;> cases sr <;> cases zip <;> cases up <;>
    first
      | (refine absurd h ?_
         simp [download_workshop_item, setStatus, finishJob, zip_workshop_item]
         done)
      | simp [download_workshop_item, setStatus, finishJob, zip_workshop_item]

/-- Claim C3 as stated: on every exit path of the execution body the permit
is released and the item is removed from the originating queue. -/
def ClaimC3 : Prop :=
  ∀ (s : SeqState) (env : JobEnv) (wid : Wid) (ip : ClientId),
    0 < s.permits →
    (download_workshop_item wid ip env s).1.permits = s.permits ∧
    (∀ q, (download_workshop_item wid ip env s).1.user_queues ip = some q →
      wid ∉ q)

/-- C3 fails on the code: when the upload raises, only the with-statements
unwind (releasing the permit) while the queue discard at app.py:87-89 is
skipped, so the item stays in the queue of client "A". -/
theorem claimC3_false : ¬ ClaimC3 := by
  intro h
  have h2 := (h (seqStart ⟨false, false⟩) ⟨true, true, false⟩ "x" "A"
    (by decide)).2 {"x"} (by decide)
  exact h2 (by decide)

/-- C3 amended: the global permit is released on every exit path, and the
item is removed from the originating queue on every normal exit
(success, already-local, tool failure, missing output and packaging
failure); but when the publish step raises, the exception skips the discard
block and user_queues is left exactly as it was. -/
theorem cleanup_on_every_exit (s : SeqState) (env : JobEnv) (wid : Wid)
    (ip : ClientId) (hp : 0 < s.permits) :
    (download_workshop_item wid ip env s).1.permits = s.permits ∧
    ((download_workshop_item wid ip env s).2 = .normal →
      ∀ q, (download_workshop_item wid ip env s).1.user_queues ip = some q →
        wid ∉ q) ∧
    ((download_workshop_item wid ip env s).2 = .raised →
      (download_workshop_item wid ip env s).1.user_queues = s.user_queues) :=
  ⟨dwi_permits wid ip env s hp,
   fun hn q hq => discardQ_not_mem s.user_queues ip wid q
     (by rw [dwi_normal_queue wid ip env s hn] at hq; exact hq),
   fun hr => dwi_raised_queue wid ip env s hr⟩

/-- Witness: the amended C3 at a concrete normal (tool-failure) run. -/
theorem cleanup_on_every_exit_witness :
    (download_workshop_item "x" "A" ⟨false, true, true⟩
      (seqStart ⟨false, false⟩)).1.permits = (seqStart ⟨false, false⟩).permits ∧
    ((download_workshop_item "x" "A" ⟨false, true, true⟩
        (seqStart ⟨false, false⟩)).2 = .normal →
      ∀ q, (download_workshop_item "x" "A" ⟨false, true, true⟩
          (seqStart ⟨false, false⟩)).1.user_queues "A" = some q → "x" ∉ q) ∧
    ((download_workshop_item "x" "A" ⟨false, true, true⟩
        (seqStart ⟨false, false⟩)).2 = .raised →
      (download_workshop_item "x" "A" ⟨false, true, true⟩
        (seqStart ⟨false, false⟩)).1.user_queues = (seqStart ⟨false, false⟩).user_queues) :=
  cleanup_on_every_exit (seqStart ⟨false, false⟩) ⟨false, true, true⟩ "x" "A"
    (by decide)

/-- Claim C4 as stated, first part: whenever packaging is attempted (the
body got past a successful fetch), the local fetched directory no longer
exists once the body terminates. -/
def ClaimC4 : Prop :=
  ∀ (s : SeqState) (env : JobEnv) (wid : Wid) (ip : ClientId),
    0 < s.permits → s.fs.dstExists = false →
    env.toolOk = true → env.srcFound = true →
    (download_workshop_item wid ip env s).1.fs.dstExists = false

/-- C4 fails on the code: when the upload raises after packaging, the
rmtree at app.py:81 is skipped and the fetched directory is retained. -/
theorem claimC4_false : ¬ ClaimC4 := by
  intro h
  have h2 := h (seqStart ⟨false, false⟩) ⟨true, true, false⟩ "x" "A"
    (by decide) rfl rfl rfl
  exact absurd h2 (by decide)

/-- C4 amended: on this path packaging always yields an artifact (the
directory was just copied into place, so the packaging-failure branch with
status "Failed to zip files" cannot run), the directory is removed and the
status is "Download complete" exactly when the publish call returns; when
the publish call raises, the body terminates abnormally and the directory
is retained on disk. -/
theorem local_dir_cleanup (s : SeqState) (env : JobEnv) (wid : Wid)
    (ip : ClientId) (hp : 0 < s.permits) (hd : s.fs.dstExists = false)
    (ht : env.toolOk = true) (hs : env.srcFound = true) :
    ((zip_workshop_item wid { s.fs with dstExists := true }).1).isSome ∧
    (env.uploadOk = true →
      (download_workshop_item wid ip env s).1.fs.dstExists = false ∧
      (download_workshop_item wid ip env s).1.download_status wid =
        some "Download complete" ∧
      (download_workshop_item wid ip env s).2 = .normal) ∧
    (env.uploadOk = false →
      (download_workshop_item wid ip env s).1.fs.dstExists = true ∧
      (download_workshop_item wid ip env s).2 = .raised) := by
  obtain ⟨ds, qs0, p, ⟨dst, zip⟩⟩ := s
  obtain ⟨tl, sr, up⟩ := env
  replace hd : dst = false := hd
  replace ht : tl = true := ht
  replace hs : sr = true := hs
  subst hd ht hs
  cases zip <;> cases up <;>
    simp [download_workshop_item, setStatus, finishJob, zip_workshop_item, upd]

/-- Witness: the amended C4 at a concrete successful run. -/
theorem local_dir_cleanup_witness :
    ((zip_workshop_item "x" { Fs.mk false false with dstExists := true }).1).isSome ∧
    (JobEnv.uploadOk ⟨true, true, true⟩ = true →
      (download_workshop_item "x" "A" ⟨true, true, true⟩
        (seqStart ⟨false, false⟩)).1.fs.dstExists = false ∧
      (download_workshop_item "x" "A" ⟨true, true, true⟩
        (seqStart ⟨false, false⟩)).1.download_status "x" =
          some "Download complete" ∧
      (download_workshop_item "x" "A" ⟨true, true, true⟩
        (seqStart ⟨false, false⟩)).2 = .normal) ∧
    (JobEnv.uploadOk ⟨true, true, true⟩ = false →
      (download_workshop_item "x" "A" ⟨true, true, true⟩
        (seqStart ⟨false, false⟩)).1.fs.dstExists = true ∧
      (download_workshop_item "x" "A" ⟨true, true, true⟩
        (seqStart ⟨false, false⟩)).2 = .raised) :=
  local_dir_cleanup (seqStart ⟨false, false⟩) ⟨true, true, true⟩ "x" "A"
    (by decide) rfl rfl rfl

/-- Program counter of one spawned download thread, naming the next
shared-state access it will perform in download_workshop_item.  started:
created by Thread(...).start() (app.py:142-143), not yet inside the
with-statement.  acquired: holds a permit (app.py:57), about to write
"Downloading..." (app.py:58).  dispatch: wrote "Downloading...", about to
perform the branch of app.py:61-85 and write its outcome status.  cleanup:
wrote a terminal status, about to run the discard block (app.py:87-89).
releasing: discard done, about to release the semaphore at the
with-statement exit.  releasingRaised: an exception escaped the try block
(the upload raised), the discard is skipped and the unwinding with-statement
is about to release the semaphore.  done / doneRaised: the thread finished
(normally / by the uncaught exception). -/
inductive PC where
  | started
  | acquired
  | dispatch
  | cleanup
  | releasing
  | releasingRaised
  | done
  | doneRaised
deriving DecidableEq, Repr

/-- One spawned download thread: its Thread(target=download_workshop_item,
args=(wid, user_ip)) arguments and its program counter. -/
structure Thread where
  wid : Wid
  ip : ClientId
  pc : PC
deriving DecidableEq, Repr

/-- The shared process state: the two dicts, the semaphore value, and every
thread ever spawned (finished threads stay in the list at a done pc). -/
structure Sys where
  download_status : StatusMap
  user_queues : Queues
  permits : Nat
  threads : List Thread

/-- The initial state at process start (app.py:43-50): empty dicts, the
semaphore at MAX_CONCURRENT_DOWNLOADS, no threads. -/
def initSys : Sys :=
  { download_status := fun _ => none, user_queues := fun _ => none,
    permits := MAX_CONCURRENT_DOWNLOADS, threads := [] }

/-- Labels of the atomic transitions.  admission carries the response returned
to the client; the others name the acting thread by its index in the thread
list.  The five finish labels are the five status writes of the branch at
app.py:61-85 (which branch runs is decided by the external filesystem, the
tool and the upload, so it appears here as the choice of label); publishRaise
is the upload call raising instead of returning. -/
inductive Ev where
  | admission (ip : ClientId) (wid : Wid) (r : AdmitResult)
  | acquire (i : Nat)
  | setDownloading (i : Nat)
  | finishAlreadyLocal (i : Nat)
  | finishToolFailed (i : Nat)
  | finishNoFiles (i : Nat)
  | finishZipFailed (i : Nat)
  | finishComplete (i : Nat)
  | publishRaise (i : Nat)
  | discardSlot (i : Nat)
  | releasePermit (i : Nat)
  | releasePermitRaised (i : Nat)
deriving DecidableEq, Repr

/-- The labelled small-step relation.  Each constructor is one atomic
shared-state access of the code: the whole add_item critical section plus
the thread spawn is one step (it runs under user_lock and the spawned
thread performs no access before its first step); each download thread then
steps through semaphore acquire, the status writes, the locked discard and
the semaphore release, in the order of download_workshop_item. -/
inductive Step : Sys → Ev → Sys → Prop where
  | admission {s : Sys} (ip : ClientId) (wid : Wid) {r : AdmitResult}
      {qs : Queues} {sp : Bool}
      (h : add_item s.download_status s.user_queues ip wid = (r, qs, sp)) :
      Step s (.admission ip wid r)
        { s with user_queues := qs,
                 threads := s.threads ++
                   (if sp then [⟨wid, ip, .started⟩] else []) }
  | acquire {s : Sys} (i : Nat) {t : Thread}
      (ht : s.threads[i]? = some t) (hpc : t.pc = .started)
      (hp : 0 < s.permits) :
      Step s (.acquire i)
        { s with permits := s.permits - 1,
                 threads := s.threads.set i { t with pc := .acquired } }
  | setDownloading {s : Sys} (i : Nat) {t : Thread}
      (ht : s.threads[i]? = some t) (hpc : t.pc = .acquired) :
      Step s (.setDownloading i)
        { s with download_status := upd s.download_status t.wid "Downloading...",
                 threads := s.threads.set i { t with pc := .dispatch } }
  | finishAlreadyLocal {s : Sys} (i : Nat) {t : Thread}
      (ht : s.threads[i]? = some t) (hpc : t.pc = .dispatch) :
      Step s (.finishAlreadyLocal i)
        { s with download_status :=
                   upd s.download_status t.wid "Already downloaded locally",
                 threads := s.threads.set i { t with pc := .cleanup } }
  | finishToolFailed {s : Sys} (i : Nat) {t : Thread}
      (ht : s.threads[i]? = some t) (hpc : t.pc = .dispatch) :
      Step s (.finishToolFailed i)
        { s with download_status := upd s.download_status t.wid "SteamCMD failed",
                 threads := s.threads.set i { t with pc := .cleanup } }
  | finishNoFiles {s : Sys} (i : Nat) {t : Thread}
      (ht : s.threads[i]? = some t) (hpc : t.pc = .dispatch) :
      Step s (.finishNoFiles i)
        { s with download_status :=
                   upd s.download_status t.wid "Failed to find downloaded files",
                 threads := s.threads.set i { t with pc := .cleanup } }
  | finishZipFailed {s : Sys} (i : Nat) {t : Thread}
      (ht : s.threads[i]? = some t) (hpc : t.pc = .dispatch) :
      Step s (.finishZipFailed i)
        { s with download_status := upd s.download_status t.wid "Failed to zip files",
                 threads := s.threads.set i { t with pc := .cleanup } }
  | finishComplete {s : Sys} (i : Nat) {t : Thread}
      (ht : s.threads[i]? = some t) (hpc : t.pc = .dispatch) :
      Step s (.finishComplete i)
        { s with download_status := upd s.download_status t.wid "Download complete",
                 threads := s.threads.set i { t with pc := .cleanup } }
  | publishRaise {s : Sys} (i : Nat) {t : Thread}
      (ht : s.threads[i]? = some t) (hpc : t.pc = .dispatch) :
      Step s (.publishRaise i)
        { s with threads := s.threads.set i { t with pc := .releasingRaised } }
  | discardSlot {s : Sys} (i : Nat) {t : Thread}
      (ht : s.threads[i]? = some t) (hpc : t.pc = .cleanup) :
      Step s (.discardSlot i)
        { s with user_queues := discardQ s.user_queues t.ip t.wid,
                 threads := s.threads.set i { t with pc := .releasing } }
  | releasePermit {s : Sys} (i : Nat) {t : Thread}
      (ht : s.threads[i]? = some t) (hpc : t.pc = .releasing) :
      Step s (.releasePermit i)
        { s with permits := s.permits + 1,
                 threads := s.threads.set i { t with pc := .done } }
  | releasePermitRaised {s : Sys} (i : Nat) {t : Thread}
      (ht : s.threads[i]? = some t) (hpc : t.pc = .releasingRaised) :
      Step s (.releasePermitRaised i)
        { s with permits := s.permits + 1,
                 threads := s.threads.set i { t with pc := .doneRaised } }

/-- Executions: s reaches t through the listed transitions. -/
inductive Reaches : Sys → List Ev → Sys → Prop where
  | refl (s : Sys) : Reaches s [] s
  | head {s m t : Sys} {e : Ev} {tr : List Ev} :
      Step s e m → Reaches m tr t → Reaches s (e :: tr) t

/-- Induction principle for reachability: an inductive invariant holds at
every state an execution reaches. -/
lemma reaches_invariant (P : Sys → Prop)
    (hstep : ∀ s e t, P s → Step s e t → P t) :
    ∀ {s tr t}, Reaches s tr t → P s → P t := by
  intro s tr t h
  induction h with
  | refl s => exact id
  | head hst _ ih => exact fun hp => ih (hstep _ _ _ hp hst)

/-- Executable form of one transition: given the label, the successor state
is determined (none when the label's guard does not hold).  Used to exhibit
concrete interleavings; stepFn_sound ties it to the step relation. -/
def stepFn (s : Sys) (e : Ev) : Option Sys :=
  match e with
  | .admission ip wid r =>
      let res := add_item s.download_status s.user_queues ip wid
      if r = res.1 then
        some { s with user_queues := res.2.1,
                      threads := s.threads ++
                        (if res.2.2 then [⟨wid, ip, .started⟩] else []) }
      else none
  | .acquire i =>
      match s.threads[i]? with
      | some t =>
        if t.pc = .started then
          if 0 < s.permits then
            some { s with permits := s.permits - 1,
                          threads := s.threads.set i { t with pc := .acquired } }
          else none
        else none
      | none => none
  | .setDownloading i =>
      match s.threads[i]? with
      | some t =>
        if t.pc = .acquired then
          some { s with download_status :=
                          upd s.download_status t.wid "Downloading...",
                        threads := s.threads.set i { t with pc := .dispatch } }
        else none
      | none => none
  | .finishAlreadyLocal i =>
      match s.threads[i]? with
      | some t =>
        if t.pc = .dispatch then
          some { s with download_status :=
                          upd s.download_status t.wid "Already downloaded locally",
                        threads := s.threads.set i { t with pc := .cleanup } }
        else none
      | none => none
  | .finishToolFailed i =>
      match s.threads[i]? with
      | some t =>
        if t.pc = .dispatch then
          some { s with download_status :=
                          upd s.download_status t.wid "SteamCMD failed",
                        threads := s.threads.set i { t with pc := .cleanup } }
        else none
      | none => none
  | .finishNoFiles i =>
      match s.threads[i]? with
      | some t =>
        if t.pc = .dispatch then
          some { s with download_status :=
                          upd s.download_status t.wid "Failed to find downloaded files",
                        threads := s.threads.set i { t with pc := .cleanup } }
        else none
      | none => none
  | .finishZipFailed i =>
      match s.threads[i]? with
      | some t =>
        if t.pc = .dispatch then
          some { s with download_status :=
                          upd s.download_status t.wid "Failed to zip files",
                        threads := s.threads.set i { t with pc := .cleanup } }
        else none
      | none => none
  | .finishComplete i =>
      match s.threads[i]? with
      | some t =>
        if t.pc = .dispatch then
          some { s with download_status :=
                          upd s.download_status t.wid "Download complete",
                        threads := s.threads.set i { t with pc := .cleanup } }
        else none
      | none => none
  | .publishRaise i =>
      match s.threads[i]? with
      | some t =>
        if t.pc = .dispatch then
          some { s with threads := s.threads.set i { t with pc := .releasingRaised } }
        else none
      | none => none
  | .discardSlot i =>
      match s.threads[i]? with
      | some t =>
        if t.pc = .cleanup then
          some { s with user_queues := discardQ s.user_queues t.ip t.wid,
                        threads := s.threads.set i { t with pc := .releasing } }
        else none
      | none => none
  | .releasePermit i =>
      match s.threads[i]? with
      | some t =>
        if t.pc = .releasing then
          some { s with permits := s.permits + 1,
                        threads := s.threads.set i { t with pc := .done } }
        else none
      | none => none
  | .releasePermitRaised i =>
      match s.threads[i]? with
      | some t =>
        if t.pc = .releasingRaised then
          some { s with permits := s.permits + 1,
                        threads := s.threads.set i { t with pc := .doneRaised } }
        else none
      | none => none

/-- Every successful stepFn transition is a Step. -/
lemma stepFn_sound {s : Sys} {e : Ev} {t : Sys} (h : stepFn s e = some t) :
    Step s e t := by
  cases e with
  | admission ip wid r =>
    simp only [stepFn] at h
    split at h
    · rename_i hr
      cases h
      subst hr
      exact Step.admission ip wid rfl
    · exact absurd h (by simp)
  | acquire i =>
    rcases hg : s.threads[i]? with _ | t0
    · simp [stepFn, hg] at h
    · simp only [stepFn, hg] at h
      split_ifs at h with h1 h2
      cases h; exact Step.acquire i hg h1 h2
  | setDownloading i =>
    rcases hg : s.threads[i]? with _ | t0
    · simp [stepFn, hg] at h
    · simp only [stepFn, hg] at h
      split_ifs at h with h1
      cases h; exact Step.setDownloading i hg h1
  | finishAlreadyLocal i =>
    rcases hg : s.threads[i]? with _ | t0
    · simp [stepFn, hg] at h
    · simp only [stepFn, hg] at h
      split_ifs at h with h1
      cases h; exact Step.finishAlreadyLocal i hg h1
  | finishToolFailed i =>
    rcases hg : s.threads[i]? with _ | t0
    · simp [stepFn, hg] at h
    · simp only [stepFn, hg] at h
      split_ifs at h with h1
      cases h; exact Step.finishToolFailed i hg h1
  | finishNoFiles i =>
    rcases hg : s.threads[i]? with _ | t0
    · simp [stepFn, hg] at h
    · simp only [stepFn, hg] at h
      split_ifs at h with h1
      cases h; exact Step.finishNoFiles i hg h1
  | finishZipFailed i =>
    rcases hg : s.threads[i]? with _ | t0
    · simp [stepFn, hg] at h
    · simp only [stepFn, hg] at h
      split_ifs at h with h1
      cases h; exact Step.finishZipFailed i hg h1
  | finishComplete i =>
    rcases hg : s.threads[i]? with _ | t0
    · simp [stepFn, hg] at h
    · simp only [stepFn, hg] at h
      split_ifs at h with h1
      cases h; exact Step.finishComplete i hg h1
  | publishRaise i =>
    rcases hg : s.threads[i]? with _ | t0
    · simp [stepFn, hg] at h
    · simp only [stepFn, hg] at h
      split_ifs at h with h1
      cases h; exact Step.publishRaise i hg h1
  | discardSlot i =>
    rcases hg : s.threads[i]? with _ | t0
    · simp [stepFn, hg] at h
    · simp only [stepFn, hg] at h
      split_ifs at h with h1
      cases h; exact Step.discardSlot i hg h1
  | releasePermit i =>
    rcases hg : s.threads[i]? with _ | t0
    · simp [stepFn, hg] at h
    · simp only [stepFn, hg] at h
      split_ifs at h with h1
      cases h; exact Step.releasePermit i hg h1
  | releasePermitRaised i =>
    rcases hg : s.threads[i]? with _ | t0
    · simp [stepFn, hg] at h
    · simp only [stepFn, hg] at h
      split_ifs at h with h1
      cases h; exact Step.releasePermitRaised i hg h1

/-- Run a whole list of transitions from a state. -/
def runTrace (s : Sys) : List Ev → Option Sys
  | [] => some s
  | e :: tr =>
    match stepFn s e with
    | some m => runTrace m tr
    | none => none

/-- A successful run is an execution of the step relation. -/
lemma runTrace_sound : ∀ (tr : List Ev) (s t : Sys),
    runTrace s tr = some t → Reaches s tr t := by
  intro tr
  induction tr with
  | nil => intro s t h; cases h; exact Reaches.refl s
  | cons e tr ih =>
    intro s t h
    simp only [runTrace] at h
    rcases hm : stepFn s e with _ | m <;> rw [hm] at h
    · exact absurd h (by simp)
    · exact Reaches.head (stepFn_sound hm) (ih m t h)

/-- The state a successful run from initSys ends in. -/
def traceEnd (tr : List Ev) : Sys :=
  (runTrace initSys tr).getD initSys

/-- A run that succeeds from initSys reaches its traceEnd. -/
lemma reaches_traceEnd (tr : List Ev) (h : (runTrace initSys tr).isSome = true) :
    Reaches initSys tr (traceEnd tr) := by
  unfold traceEnd
  rcases hr : runTrace initSys tr with _ | t
  · rw [hr] at h; exact absurd h (by simp)
  · exact runTrace_sound tr initSys t hr

/-- The state a successful run from an arbitrary start ends in. -/
def runEnd (s : Sys) (tr : List Ev) : Sys :=
  (runTrace s tr).getD s

/-- A run that succeeds reaches its runEnd. -/
lemma reaches_runEnd (s : Sys) (tr : List Ev)
    (h : (runTrace s tr).isSome = true) : Reaches s tr (runEnd s tr) := by
  unfold runEnd
  rcases hr : runTrace s tr with _ | t
  · rw [hr] at h; exact absurd h (by simp)
  · exact runTrace_sound tr s t hr

/-- A resolving index is below the length of the list. -/
lemma lt_length_of_getElem? {l : List Thread} {i : Nat} {a : Thread}
    (h : l[i]? = some a) : i < l.length :=
  (List.getElem?_eq_some.mp h).1

/-- Replacing one element shifts countP by the contributions of the old and
new elements. -/
lemma countP_set (p : Thread → Bool) (l : List Thread) (i : Nat) (a b : Thread)
    (h : l[i]? = some a) :
    (l.set i b).countP p + (if p a then 1 else 0) =
      l.countP p + (if p b then 1 else 0) := by
  induction l generalizing i with
  | nil => simp at h
  | cons x xs ih =>
    cases i with
    | zero =>
      simp at h
      subst h
      simp [List.countP_cons]
      omega
    | succ n =>
      simp at h
      have hih := ih n h
      simp [List.countP_cons]
      omega

/-- Writing one key never erases another entry of the status dict. -/
lemma upd_isSome {ds : StatusMap} {w : Wid} (k : Wid) (v : String)
    (h : (ds w).isSome) : ((upd ds k v) w).isSome := by
  unfold upd
  split <;> simp_all

/-- Threads currently inside the with download_semaphore block (app.py:57):
they have acquired a permit and not yet released it. -/
def holdsPermit (pc : PC) : Bool :=
  match pc with
  | .acquired | .dispatch | .cleanup | .releasing | .releasingRaised => true
  | _ => false

/-- Number of threads currently holding a permit. -/
def holdingCount (s : Sys) : Nat :=
  s.threads.countP (fun t => holdsPermit t.pc)

/-- Semaphore accounting: free permits plus held permits is constant. -/
def PermitInv (s : Sys) : Prop :=
  s.permits + holdingCount s = MAX_CONCURRENT_DOWNLOADS

/-- countP change from one pc update. -/
lemma permit_count_set (s : Sys) (i : Nat) (t0 : Thread) (pc2 : PC)
    (ht : s.threads[i]? = some t0) :
    (s.threads.set i { t0 with pc := pc2 }).countP (fun t => holdsPermit t.pc) +
      (if holdsPermit t0.pc then 1 else 0) =
    s.threads.countP (fun t => holdsPermit t.pc) +
      (if holdsPermit pc2 then 1 else 0) :=
  countP_set (fun t => holdsPermit t.pc) s.threads i t0 { t0 with pc := pc2 } ht

lemma permitInv_step (s : Sys) (e : Ev) (t : Sys)
    (hs : PermitInv s) (hstep : Step s e t) : PermitInv t := by
  unfold PermitInv holdingCount at *
  cases hstep with
  | admission ip wid h =>
    rename_i sp
    have hone : List.countP (fun t => holdsPermit t.pc)
        (if sp then [(⟨wid, ip, .started⟩ : Thread)] else []) = 0 := by
      cases sp <;> simp [List.countP_cons, holdsPermit]
    simp only [List.countP_append, hone]
    omega
  | acquire i ht hpc hp =>
    have hc := permit_count_set s i _ .acquired ht
    rw [hpc] at hc
    simp [show holdsPermit PC.started = false from rfl,
      show holdsPermit PC.acquired = true from rfl] at hc
    dsimp only
    omega
  | setDownloading i ht hpc =>
    have hc := permit_count_set s i _ .dispatch ht
    rw [hpc] at hc
    simp [show holdsPermit PC.acquired = true from rfl,
      show holdsPermit PC.dispatch = true from rfl] at hc
    dsimp only
    omega
  | finishAlreadyLocal i ht hpc =>
    have hc := permit_count_set s i _ .cleanup ht
    rw [hpc] at hc
    simp [show holdsPermit PC.dispatch = true from rfl,
      show holdsPermit PC.cleanup = true from rfl] at hc
    dsimp only
    omega
  | finishToolFailed i ht hpc =>
    have hc := permit_count_set s i _ .cleanup ht
    rw [hpc] at hc
    simp [show holdsPermit PC.dispatch = true from rfl,
      show holdsPermit PC.cleanup = true from rfl] at hc
    dsimp only
    omega
  | finishNoFiles i ht hpc =>
    have hc := permit_count_set s i _ .cleanup ht
    rw [hpc] at hc
    simp [show holdsPermit PC.dispatch = true from rfl,
      show holdsPermit PC.cleanup = true from rfl] at hc
    dsimp only
    omega
  | finishZipFailed i ht hpc =>
    have hc := permit_count_set s i _ .cleanup ht
    rw [hpc] at hc
    simp [show holdsPermit PC.dispatch = true from rfl,
      show holdsPermit PC.cleanup = true from rfl] at hc
    dsimp only
    omega
  | finishComplete i ht hpc =>
    have hc := permit_count_set s i _ .cleanup ht
    rw [hpc] at hc
    simp [show holdsPermit PC.dispatch = true from rfl,
      show holdsPermit PC.cleanup = true from rfl] at hc
    dsimp only
    omega
  | publishRaise i ht hpc =>
    have hc := permit_count_set s i _ .releasingRaised ht
    rw [hpc] at hc
    simp [show holdsPermit PC.dispatch = true from rfl,
      show holdsPermit PC.releasingRaised = true from rfl] at hc
    dsimp only
    omega
  | discardSlot i ht hpc =>
    have hc := permit_count_set s i _ .releasing ht
    rw [hpc] at hc
    simp [show holdsPermit PC.cleanup = true from rfl,
      show holdsPermit PC.releasing = true from rfl] at hc
    dsimp only
    omega
  | releasePermit i ht hpc =>
    have hc := permit_count_set s i _ .done ht
    rw [hpc] at hc
    simp [show holdsPermit PC.releasing = true from rfl,
      show holdsPermit PC.done = false from rfl] at hc
    dsimp only
    omega
  | releasePermitRaised i ht hpc =>
    have hc := permit_count_set s i _ .doneRaised ht
    rw [hpc] at hc
    simp [show holdsPermit PC.releasingRaised = true from rfl,
      show holdsPermit PC.doneRaised = false from rfl] at hc
    dsimp only
    omega

/-- Interleaving for C6: three items admitted by client "A"; the first job
acquires a permit, writes "Downloading...", then its upload raises, so it
releases the permit with the stale "Downloading..." entry left behind; the
other two jobs then acquire the two permits and write "Downloading...". -/
def trStaleDownloading : List Ev :=
  [.admission "A" "1" .accepted, .admission "A" "2" .accepted, .admission "A" "3" .accepted,
   .acquire 0, .setDownloading 0, .publishRaise 0, .releasePermitRaised 0,
   .acquire 1, .setDownloading 1, .acquire 2, .setDownloading 2]

/-- Claim C6 as stated: in every reachable state the number of identifiers
whose status is "Downloading..." is at most MAX_CONCURRENT_DOWNLOADS = 2;
at most 2 is rendered as the absence of three pairwise distinct witnesses. -/
def ClaimC6 : Prop :=
  ∀ tr s, Reaches initSys tr s →
    ∀ w1 w2 w3 : Wid, w1 ≠ w2 → w1 ≠ w3 → w2 ≠ w3 →
      ¬ (s.download_status w1 = some "Downloading..." ∧
         s.download_status w2 = some "Downloading..." ∧
         s.download_status w3 = some "Downloading...")

/-- C6 fails on the code: a publish failure leaves its job's entry stuck at
"Downloading..." after the permit is released, so three identifiers can read
"Downloading..." at once. -/
theorem claimC6_false : ¬ ClaimC6 := by
  intro h
  exact h trStaleDownloading (traceEnd trStaleDownloading)
    (reaches_traceEnd trStaleDownloading (by decide)) "1" "2" "3"
    (by decide) (by decide) (by decide) ⟨by decide, by decide, by decide⟩

/-- C6 amended: what the semaphore bounds is the number of threads that
hold a permit, i.e. are executing inside the with download_semaphore block:
free permits plus holders is always exactly MAX_CONCURRENT_DOWNLOADS, so at
most MAX_CONCURRENT_DOWNLOADS jobs are ever simultaneously inside the
guarded body.  The count of registry entries reading "Downloading..." can
exceed the cap, because a job whose publish call raises terminates with its
entry still at "Downloading..." after releasing its permit. -/
theorem permit_holder_bound (tr : List Ev) (s : Sys)
    (h : Reaches initSys tr s) :
    s.permits + holdingCount s = MAX_CONCURRENT_DOWNLOADS ∧
    holdingCount s ≤ MAX_CONCURRENT_DOWNLOADS := by
  have hinv : PermitInv s :=
    reaches_invariant PermitInv permitInv_step h (by rfl)
  exact ⟨hinv, by unfold PermitInv at hinv; omega⟩

/-- Witness: the permit accounting at the end of the C6 interleaving, where
all permits are held. -/
theorem permit_holder_bound_witness :
    (traceEnd trStaleDownloading).permits +
      holdingCount (traceEnd trStaleDownloading) = MAX_CONCURRENT_DOWNLOADS ∧
    holdingCount (traceEnd trStaleDownloading) ≤ MAX_CONCURRENT_DOWNLOADS :=
  permit_holder_bound trStaleDownloading (traceEnd trStaleDownloading)
    (reaches_traceEnd trStaleDownloading (by decide))

/-- Per-client queue bound: every existing queue set has at most
MAX_USER_QUEUE elements. -/
def QueueInv (s : Sys) : Prop :=
  ∀ c q, s.user_queues c = some q → q.card ≤ MAX_USER_QUEUE

/-- setdefault preserves the queue bound (it only adds an empty set). -/
lemma setdefaultQ_card {qs : Queues} {ip : ClientId}
    (hq : ∀ c q, qs c = some q → q.card ≤ MAX_USER_QUEUE) :
    ∀ c q, setdefaultQ qs ip c = some q → q.card ≤ MAX_USER_QUEUE := by
  intro c q
  unfold setdefaultQ
  split_ifs with h
  · intro hc
    rcases h0 : qs ip with _ | q0 <;> rw [h0] at hc <;>
      simp only [Option.getD_some, Option.getD_none, Option.some_inj] at hc <;>
      subst hc
    · simp [MAX_USER_QUEUE]
    · exact hq ip q0 h0
  · exact hq c q

/-- The admission route preserves the queue bound: it inserts only after
checking that len(queue) >= MAX_USER_QUEUE does not hold. -/
lemma add_item_queues_card (ds : StatusMap) (qs : Queues) (ip : ClientId)
    (wid : Wid) (hq : ∀ c q, qs c = some q → q.card ≤ MAX_USER_QUEUE) :
    ∀ c q, (add_item ds qs ip wid).2.1 c = some q → q.card ≤ MAX_USER_QUEUE := by
  intro c q
  simp only [add_item]
  split_ifs with h1 h2 h3
  · exact hq c q
  · exact setdefaultQ_card hq c q
  · exact setdefaultQ_card hq c q
  · intro hc
    replace hc : (if c = ip
        then some (insert wid ((setdefaultQ qs ip ip).getD ∅))
        else setdefaultQ qs ip c) = some q := hc
    split_ifs at hc with h4
    · simp only [Option.some_inj] at hc
      subst hc
      have hle := Finset.card_insert_le wid ((setdefaultQ qs ip ip).getD ∅)
      simp only [MAX_USER_QUEUE, not_le] at h3 ⊢
      omega
    · exact setdefaultQ_card hq c q hc

lemma queueInv_step (s : Sys) (e : Ev) (t : Sys)
    (hs : QueueInv s) (hstep : Step s e t) : QueueInv t := by
  cases hstep with
  | admission ip wid h =>
    intro c q hc
    have hcard := add_item_queues_card s.download_status s.user_queues ip wid hs c q
    rw [h] at hcard
    exact hcard hc
  | discardSlot i ht hpc =>
    intro c q hc
    simp only [discardQ] at hc
    split_ifs at hc with h1
    · rcases h0 : s.user_queues _ with _ | q0 <;> rw [h0] at hc
      · exact absurd hc (by simp)
      · simp at hc
        subst hc
        exact le_trans (Finset.card_le_card (Finset.erase_subset _ _)) (hs _ q0 h0)
    · exact hs c q hc
  | acquire i ht hpc hp => exact hs
  | setDownloading i ht hpc => exact hs
  | finishAlreadyLocal i ht hpc => exact hs
  | finishToolFailed i ht hpc => exact hs
  | finishNoFiles i ht hpc => exact hs
  | finishZipFailed i ht hpc => exact hs
  | finishComplete i ht hpc => exact hs
  | publishRaise i ht hpc => exact hs
  | releasePermit i ht hpc => exact hs
  | releasePermitRaised i ht hpc => exact hs

/-- Interleaving for the C5 witness: client "A" fills its queue. -/
def trFullQueue : List Ev :=
  [.admission "A" "1" .accepted, .admission "A" "2" .accepted, .admission "A" "3" .accepted]

/-- C5: in every reachable state every client queue holds at most
MAX_USER_QUEUE identifiers, and an admission that would exceed the cap
(queue already at the cap, identifier not a duplicate) returns
ClientQueueFull, changes no queue and spawns no thread. -/
theorem client_queue_cap (tr : List Ev) (s : Sys) (h : Reaches initSys tr s) :
    (∀ c q, s.user_queues c = some q → q.card ≤ MAX_USER_QUEUE) ∧
    (∀ ip wid q, s.user_queues ip = some q → wid ∉ q →
      s.download_status wid = none → wid ≠ "" → MAX_USER_QUEUE ≤ q.card →
      (add_item s.download_status s.user_queues ip wid).1 = .clientQueueFull ∧
      (∀ c, (add_item s.download_status s.user_queues ip wid).2.1 c =
        s.user_queues c) ∧
      (add_item s.download_status s.user_queues ip wid).2.2 = false) := by
  constructor
  · exact reaches_invariant QueueInv queueInv_step h
      (by intro c q hc; exact absurd hc (by simp [initSys]))
  · intro ip wid q hip hnm hds hw hcard
    have hqueue : (setdefaultQ s.user_queues ip ip).getD ∅ = q := by
      simp [setdefaultQ, hip]
    simp only [add_item, hqueue, hds, if_neg hw]
    simp only [Option.isSome_none, Bool.false_eq_true, or_false, if_neg hnm,
      if_pos hcard]
    refine ⟨trivial, ?_, trivial⟩
    intro c
    simp only [setdefaultQ]
    split_ifs with h1
    · subst h1; rw [hip]; rfl
    · rfl

/-- Witness: after client "A" admits "1", "2", "3", its queue has card 3
and admitting "4" is rejected with ClientQueueFull without spawning. -/
theorem client_queue_cap_witness :
    (({"3", "2", "1"} : Finset Wid)).card ≤ MAX_USER_QUEUE ∧
    (add_item (traceEnd trFullQueue).download_status
      (traceEnd trFullQueue).user_queues "A" "4").1 = .clientQueueFull ∧
    (add_item (traceEnd trFullQueue).download_status
      (traceEnd trFullQueue).user_queues "A" "4").2.2 = false := by
  have hc := client_queue_cap trFullQueue (traceEnd trFullQueue)
    (reaches_traceEnd trFullQueue (by decide))
  have h2 := hc.2 "A" "4" ({"3", "2", "1"} : Finset Wid) (by decide) (by decide)
    (by decide) (by decide) (by decide)
  exact ⟨hc.1 "A" _ (by decide), h2.1, h2.2.2⟩

/-- Number of accepted admissions for a given identifier in a trace. -/
def acceptsFor (wid : Wid) (tr : List Ev) : Nat :=
  tr.countP (fun e =>
    match e with
    | .admission _ w r => w == wid && r == AdmitResult.accepted
    | _ => false)

/-- Interleaving for C1: clients "A" and "B" both request "w" before the
spawned thread of "A" performs any step; neither sees "w" in its own queue
nor in download_status, so both are accepted. -/
def trDedupRace : List Ev :=
  [.admission "A" "w" .accepted, .admission "B" "w" .accepted]

/-- Claim C1 as stated: along every execution each identifier is accepted
at most once, so at most one job for it ever runs. -/
def ClaimC1 : Prop :=
  ∀ tr s, Reaches initSys tr s → ∀ wid, acceptsFor wid tr ≤ 1

/-- C1 fails on the code: the dedup check at app.py:136 consults only the
requesting client's own queue and download_status, and a job writes
download_status only after acquiring a permit, so two distinct clients
racing on the same identifier can both be accepted. -/
theorem claimC1_false : ¬ ClaimC1 := by
  intro h
  exact absurd
    (h trDedupRace (traceEnd trDedupRace)
      (reaches_traceEnd trDedupRace (by decide)) "w")
    (by decide)

/-- The dedup branch: a registry entry forces AlreadyQueuedOrDone. -/
lemma add_item_already_status (ds : StatusMap) (qs : Queues) (ip : ClientId)
    (wid : Wid) (hw : wid ≠ "") (hs : (ds wid).isSome) :
    (add_item ds qs ip wid).1 = .alreadyQueuedOrDone := by
  simp only [add_item, if_neg hw]
  rw [if_pos (Or.inr hs)]

/-- The dedup branch: membership in the requesting client's queue forces
AlreadyQueuedOrDone. -/
lemma add_item_already_queued (ds : StatusMap) (qs : Queues) (ip : ClientId)
    (wid : Wid) (q : Finset Wid) (hw : wid ≠ "") (hq : qs ip = some q)
    (hm : wid ∈ q) :
    (add_item ds qs ip wid).1 = .alreadyQueuedOrDone := by
  have hqueue : (setdefaultQ qs ip ip).getD ∅ = q := by
    simp [setdefaultQ, hq]
  simp only [add_item, if_neg hw, hqueue]
  rw [if_pos (Or.inl hm)]

/-- C1 amended: admission deduplicates against the registry and against the
requesting client's own queue — once any status has been written for the
identifier (and registry entries persist across every step), or while the
identifier sits in that client's queue set, the request is rejected with
AlreadyQueuedOrDone.  But there is no reservation between an accepted
admission and the job's "Downloading..." write, so during that window a
different client's request for the same identifier is also accepted and a
second job for the identifier runs (the claimed exactly-one-Accepted
guarantee fails, as claimC1_false shows on a concrete race). -/
theorem admission_dedup
    (s : Sys) (e : Ev) (t : Sys) (ip : ClientId) (wid : Wid)
    (r : AdmitResult) (hstep : Step s e t) :
    (e = .admission ip wid r → wid ≠ "" → (s.download_status wid).isSome →
      r = .alreadyQueuedOrDone) ∧
    (∀ q, e = .admission ip wid r → wid ≠ "" → s.user_queues ip = some q →
      wid ∈ q → r = .alreadyQueuedOrDone) ∧
    ((s.download_status wid).isSome → (t.download_status wid).isSome) := by
  refine ⟨?_, ?_, ?_⟩
  · intro he hw hsome
    cases hstep with
    | admission ip1 wid1 h =>
      cases he
      have := add_item_already_status s.download_status s.user_queues ip wid
        hw hsome
      rw [h] at this
      exact this
    | acquire i ht hpc hp => cases he
    | setDownloading i ht hpc => cases he
    | finishAlreadyLocal i ht hpc => cases he
    | finishToolFailed i ht hpc => cases he
    | finishNoFiles i ht hpc => cases he
    | finishZipFailed i ht hpc => cases he
    | finishComplete i ht hpc => cases he
    | publishRaise i ht hpc => cases he
    | discardSlot i ht hpc => cases he
    | releasePermit i ht hpc => cases he
    | releasePermitRaised i ht hpc => cases he
  · intro q he hw hq hm
    cases hstep with
    | admission ip1 wid1 h =>
      cases he
      have := add_item_already_queued s.download_status s.user_queues ip wid q
        hw hq hm
      rw [h] at this
      exact this
    | acquire i ht hpc hp => cases he
    | setDownloading i ht hpc => cases he
    | finishAlreadyLocal i ht hpc => cases he
    | finishNoFiles i ht hpc => cases he
    | finishToolFailed i ht hpc => cases he
    | finishZipFailed i ht hpc => cases he
    | finishComplete i ht hpc => cases he
    | publishRaise i ht hpc => cases he
    | discardSlot i ht hpc => cases he
    | releasePermit i ht hpc => cases he
    | releasePermitRaised i ht hpc => cases he
  · intro hsome
    cases hstep with
    | admission ip1 wid1 h => exact hsome
    | acquire i ht hpc hp => exact hsome
    | setDownloading i ht hpc => exact upd_isSome _ _ hsome
    | finishAlreadyLocal i ht hpc => exact upd_isSome _ _ hsome
    | finishToolFailed i ht hpc => exact upd_isSome _ _ hsome
    | finishNoFiles i ht hpc => exact upd_isSome _ _ hsome
    | finishZipFailed i ht hpc => exact upd_isSome _ _ hsome
    | finishComplete i ht hpc => exact upd_isSome _ _ hsome
    | publishRaise i ht hpc => exact hsome
    | discardSlot i ht hpc => exact hsome
    | releasePermit i ht hpc => exact hsome
    | releasePermitRaised i ht hpc => exact hsome

/-- A successful stepFn transition to its computed successor. -/
lemma stepFn_sound_getD {s : Sys} {e : Ev} (h : (stepFn s e).isSome = true) :
    Step s e ((stepFn s e).getD initSys) := by
  rcases hr : stepFn s e with _ | t
  · rw [hr] at h; exact absurd h (by simp)
  · exact stepFn_sound hr

/-- Witness: after "A" is accepted for "w" and the job wrote
"Downloading...", the admission of "B" for "w" is a step that returns
AlreadyQueuedOrDone, and the registry entry persists across that step. -/
theorem admission_dedup_witness :
    (Ev.admission "B" "w" AdmitResult.alreadyQueuedOrDone =
        .admission "B" "w" AdmitResult.alreadyQueuedOrDone →
      ("w" : Wid) ≠ "" →
      ((traceEnd [.admission "A" "w" .accepted, .acquire 0,
        .setDownloading 0]).download_status "w").isSome →
      AdmitResult.alreadyQueuedOrDone = .alreadyQueuedOrDone) ∧
    ((stepFn (traceEnd [.admission "A" "w" .accepted, .acquire 0,
        .setDownloading 0]) (.admission "B" "w" .alreadyQueuedOrDone)).getD initSys
      |>.download_status "w").isSome := by
  have hstep : Step (traceEnd [.admission "A" "w" .accepted, .acquire 0,
      .setDownloading 0]) (.admission "B" "w" .alreadyQueuedOrDone)
      ((stepFn (traceEnd [.admission "A" "w" .accepted, .acquire 0,
        .setDownloading 0]) (.admission "B" "w" .alreadyQueuedOrDone)).getD initSys) := by
    exact stepFn_sound_getD (by decide)
  have h := admission_dedup _ _ _ "B" "w" .alreadyQueuedOrDone hstep
  exact ⟨fun he hw hsome => h.1 he hw hsome, h.2.2 (by decide)⟩

/-- Writing a key makes it present. -/
lemma upd_self (ds : StatusMap) (k : Wid) (v : String) : upd ds k v k = some v := by
  simp [upd]

/-- Case analysis for a lookup in a list with one element replaced. -/
lemma getElem?_set_cases {l : List Thread} {i j : Nat} {a b t1 : Thread}
    (ha : l[i]? = some a) (hj : (l.set i b)[j]? = some t1) :
    (j = i ∧ t1 = b) ∨ (j ≠ i ∧ l[j]? = some t1) := by
  by_cases hij : j = i
  · subst hij
    rw [List.getElem?_set_self (lt_length_of_getElem? ha)] at hj
    exact Or.inl ⟨rfl, (Option.some_inj.mp hj).symm⟩
  · rw [List.getElem?_set_ne (fun hh => hij hh.symm)] at hj
    exact Or.inr ⟨hij, hj⟩

/-- Case analysis for a lookup in a list with one element appended. -/
lemma getElem?_append_cases {l : List Thread} {x t1 : Thread} {j : Nat}
    (hj : (l ++ [x])[j]? = some t1) :
    l[j]? = some t1 ∨ t1 = x := by
  rw [List.getElem?_append] at hj
  split_ifs at hj with hl
  · exact Or.inl hj
  · rcases hk : j - l.length with _ | k <;> rw [hk] at hj
    · simp at hj; exact Or.inr hj.symm
    · simp at hj

/-- Range invariant of the registry: only the six strings the code writes
ever appear as a status value. -/
def StatusInv (s : Sys) : Prop :=
  ∀ w v, s.download_status w = some v → v ∈ writtenStrings

/-- One status write of a string from writtenStrings preserves StatusInv. -/
lemma statusInv_upd {s : Sys} (hs : StatusInv s) (k : Wid) (v0 : String)
    (hv : v0 ∈ writtenStrings) :
    ∀ w v, upd s.download_status k v0 w = some v → v ∈ writtenStrings := by
  intro w v hw
  unfold upd at hw
  split_ifs at hw with h1
  · cases hw; exact hv
  · exact hs w v hw

lemma statusInv_step (s : Sys) (e : Ev) (t : Sys)
    (hs : StatusInv s) (hstep : Step s e t) : StatusInv t := by
  cases hstep with
  | admission ip wid h => exact hs
  | acquire i ht hpc hp => exact hs
  | setDownloading i ht hpc =>
    exact statusInv_upd hs _ _ (by simp [writtenStrings, terminalStrings])
  | finishAlreadyLocal i ht hpc =>
    exact statusInv_upd hs _ _ (by simp [writtenStrings, terminalStrings])
  | finishToolFailed i ht hpc =>
    exact statusInv_upd hs _ _ (by simp [writtenStrings, terminalStrings])
  | finishNoFiles i ht hpc =>
    exact statusInv_upd hs _ _ (by simp [writtenStrings, terminalStrings])
  | finishZipFailed i ht hpc =>
    exact statusInv_upd hs _ _ (by simp [writtenStrings, terminalStrings])
  | finishComplete i ht hpc =>
    exact statusInv_upd hs _ _ (by simp [writtenStrings, terminalStrings])
  | publishRaise i ht hpc => exact hs
  | discardSlot i ht hpc => exact hs
  | releasePermit i ht hpc => exact hs
  | releasePermitRaised i ht hpc => exact hs

/-- A thread past its "Downloading..." write has a registry entry for its
identifier. -/
def ActiveInv (s : Sys) : Prop :=
  ∀ (i : Nat) (t : Thread), s.threads[i]? = some t →
    t.pc ≠ .started → t.pc ≠ .acquired →
    (s.download_status t.wid).isSome = true

lemma activeInv_step (s : Sys) (e : Ev) (t : Sys)
    (hs : ActiveInv s) (hstep : Step s e t) : ActiveInv t := by
  cases hstep with
  | admission ip wid h =>
    rename_i sp
    intro j t1 hj hp1 hp2
    cases sp
    · rw [if_neg (by simp)] at hj
      simp only [List.append_nil] at hj
      exact hs j t1 hj hp1 hp2
    · rw [if_pos rfl] at hj
      rcases getElem?_append_cases hj with hmem | hx
      · exact hs j t1 hmem hp1 hp2
      · subst hx; exact absurd rfl hp1
  | acquire i ht hpc =>
    intro j t1 hj hp1 hp2
    rcases getElem?_set_cases ht hj with ⟨hij, hb⟩ | ⟨hij, hmem⟩
    · subst hb; exact absurd rfl hp2
    · exact hs j t1 hmem hp1 hp2
  | setDownloading i ht hpc =>
    intro j t1 hj hp1 hp2
    rcases getElem?_set_cases ht hj with ⟨hij, hb⟩ | ⟨hij, hmem⟩
    · subst hb
      dsimp only
      rw [upd_self]
      rfl
    · exact upd_isSome _ _ (hs j t1 hmem hp1 hp2)
  | finishAlreadyLocal i ht hpc =>
    intro j t1 hj hp1 hp2
    rcases getElem?_set_cases ht hj with ⟨hij, hb⟩ | ⟨hij, hmem⟩
    · subst hb; dsimp only; rw [upd_self]; rfl
    · exact upd_isSome _ _ (hs j t1 hmem hp1 hp2)
  | finishToolFailed i ht hpc =>
    intro j t1 hj hp1 hp2
    rcases getElem?_set_cases ht hj with ⟨hij, hb⟩ | ⟨hij, hmem⟩
    · subst hb; dsimp only; rw [upd_self]; rfl
    · exact upd_isSome _ _ (hs j t1 hmem hp1 hp2)
  | finishNoFiles i ht hpc =>
    intro j t1 hj hp1 hp2
    rcases getElem?_set_cases ht hj with ⟨hij, hb⟩ | ⟨hij, hmem⟩
    · subst hb; dsimp only; rw [upd_self]; rfl
    · exact upd_isSome _ _ (hs j t1 hmem hp1 hp2)
  | finishZipFailed i ht hpc =>
    intro j t1 hj hp1 hp2
    rcases getElem?_set_cases ht hj with ⟨hij, hb⟩ | ⟨hij, hmem⟩
    · subst hb; dsimp only; rw [upd_self]; rfl
    · exact upd_isSome _ _ (hs j t1 hmem hp1 hp2)
  | finishComplete i ht hpc =>
    intro j t1 hj hp1 hp2
    rcases getElem?_set_cases ht hj with ⟨hij, hb⟩ | ⟨hij, hmem⟩
    · subst hb; dsimp only; rw [upd_self]; rfl
    · exact upd_isSome _ _ (hs j t1 hmem hp1 hp2)
  | publishRaise i ht hpc =>
    rename_i t0
    intro j t1 hj hp1 hp2
    rcases getElem?_set_cases ht hj with ⟨hij, hb⟩ | ⟨hij, hmem⟩
    · subst hb
      exact hs i t0 ht (by rw [hpc]; intro hh; cases hh)
        (by rw [hpc]; intro hh; cases hh)
    · exact hs j t1 hmem hp1 hp2
  | discardSlot i ht hpc =>
    rename_i t0
    intro j t1 hj hp1 hp2
    rcases getElem?_set_cases ht hj with ⟨hij, hb⟩ | ⟨hij, hmem⟩
    · subst hb
      exact hs i t0 ht (by rw [hpc]; intro hh; cases hh)
        (by rw [hpc]; intro hh; cases hh)
    · exact hs j t1 hmem hp1 hp2
  | releasePermit i ht hpc =>
    rename_i t0
    intro j t1 hj hp1 hp2
    rcases getElem?_set_cases ht hj with ⟨hij, hb⟩ | ⟨hij, hmem⟩
    · subst hb
      exact hs i t0 ht (by rw [hpc]; intro hh; cases hh)
        (by rw [hpc]; intro hh; cases hh)
    · exact hs j t1 hmem hp1 hp2
  | releasePermitRaised i ht hpc =>
    rename_i t0
    intro j t1 hj hp1 hp2
    rcases getElem?_set_cases ht hj with ⟨hij, hb⟩ | ⟨hij, hmem⟩
    · subst hb
      exact hs i t0 ht (by rw [hpc]; intro hh; cases hh)
        (by rw [hpc]; intro hh; cases hh)
    · exact hs j t1 hmem hp1 hp2

/-- Updating one key leaves other keys unchanged. -/
lemma upd_other {ds : StatusMap} {k w : Wid} (v : String) (h : w ≠ k) :
    upd ds k v w = ds w := by
  simp [upd, h]

/-- ActiveInv holds initially: there are no threads. -/
lemma activeInv_init : ActiveInv initSys := by
  intro i t hi
  simp [initSys] at hi

/-- C10: the string "Queued" is never a registry value in any reachable
state; whenever a step turns an absent registry entry into a present one,
the written value is "Downloading..." (the write at app.py:58, performed
after the permit was acquired); the admission step never touches the
registry, so a job that was Accepted but has not yet acquired a permit
leaves its identifier absent; and the /status route maps an absent entry to
"Not started". -/
theorem queued_never_written :
    (∀ tr s, Reaches initSys tr s →
      ∀ w : Wid, s.download_status w ≠ some "Queued") ∧
    (∀ tr s e t (w : Wid), Reaches initSys tr s → Step s e t →
      s.download_status w = none → t.download_status w ≠ none →
      t.download_status w = some "Downloading...") ∧
    (∀ (s : Sys) (ip : ClientId) (wid : Wid) (r : AdmitResult) (t : Sys)
      (w : Wid), Step s (.admission ip wid r) t →
      t.download_status w = s.download_status w) ∧
    (∀ (ds : StatusMap) (w : Wid), ds w = none →
      status_route ds w = "Not started") := by
  refine ⟨?_, ?_, ?_, ?_⟩
  · intro tr s hr w hcon
    have hinv : StatusInv s :=
      reaches_invariant StatusInv statusInv_step hr
        (by intro w0 v hv; exact absurd hv (by simp [initSys]))
    have := hinv w "Queued" hcon
    simp [writtenStrings, terminalStrings] at this
  · intro tr s e t w hr hstep hnone hne
    have hact : ActiveInv s :=
      reaches_invariant ActiveInv activeInv_step hr activeInv_init
    cases hstep with
    | admission ip wid h => exact absurd hnone hne
    | acquire i ht hpc hp => exact absurd hnone hne
    | setDownloading i ht hpc =>
      rename_i t0
      by_cases hww : w = t0.wid
      · subst hww; exact upd_self _ _ _
      · dsimp only at hne ⊢
        rw [upd_other _ hww] at hne ⊢
        exact absurd hnone hne
    | finishAlreadyLocal i ht hpc =>
      rename_i t0
      by_cases hww : w = t0.wid
      · subst hww
        have := hact i t0 ht (by rw [hpc]; intro hh; cases hh)
          (by rw [hpc]; intro hh; cases hh)
        rw [hnone] at this
        exact absurd this (by simp)
      · dsimp only at hne ⊢
        rw [upd_other _ hww] at hne ⊢
        exact absurd hnone hne
    | finishToolFailed i ht hpc =>
      rename_i t0
      by_cases hww : w = t0.wid
      · subst hww
        have := hact i t0 ht (by rw [hpc]; intro hh; cases hh)
          (by rw [hpc]; intro hh; cases hh)
        rw [hnone] at this
        exact absurd this (by simp)
      · dsimp only at hne ⊢
        rw [upd_other _ hww] at hne ⊢
        exact absurd hnone hne
    | finishNoFiles i ht hpc =>
      rename_i t0
      by_cases hww : w = t0.wid
      · subst hww
        have := hact i t0 ht (by rw [hpc]; intro hh; cases hh)
          (by rw [hpc]; intro hh; cases hh)
        rw [hnone] at this
        exact absurd this (by simp)
      · dsimp only at hne ⊢
        rw [upd_other _ hww] at hne ⊢
        exact absurd hnone hne
    | finishZipFailed i ht hpc =>
      rename_i t0
      by_cases hww : w = t0.wid
      · subst hww
        have := hact i t0 ht (by rw [hpc]; intro hh; cases hh)
          (by rw [hpc]; intro hh; cases hh)
        rw [hnone] at this
        exact absurd this (by simp)
      · dsimp only at hne ⊢
        rw [upd_other _ hww] at hne ⊢
        exact absurd hnone hne
    | finishComplete i ht hpc =>
      rename_i t0
      by_cases hww : w = t0.wid
      · subst hww
        have := hact i t0 ht (by rw [hpc]; intro hh; cases hh)
          (by rw [hpc]; intro hh; cases hh)
        rw [hnone] at this
        exact absurd this (by simp)
      · dsimp only at hne ⊢
        rw [upd_other _ hww] at hne ⊢
        exact absurd hnone hne
    | publishRaise i ht hpc => exact absurd hnone hne
    | discardSlot i ht hpc => exact absurd hnone hne
    | releasePermit i ht hpc => exact absurd hnone hne
    | releasePermitRaised i ht hpc => exact absurd hnone hne
  · intro s ip wid r t w hstep
    cases hstep
    rfl
  · intro ds w h
    simp [status_route, h]

/-- Witness: the C10 conjuncts at concrete runs: the initial state holds no
"Queued"; the setDownloading step of the job for "w" is the step that
creates the first entry, and it writes "Downloading..."; the accepted
admission of "w" leaves the registry untouched; and polling an absent
identifier answers "Not started". -/
theorem queued_never_written_witness :
    (traceEnd []).download_status "w" ≠ some "Queued" ∧
    ((stepFn (traceEnd [.admission "A" "w" .accepted, .acquire 0])
        (.setDownloading 0)).getD initSys).download_status "w" =
      some "Downloading..." ∧
    ((stepFn initSys (.admission "A" "w" .accepted)).getD initSys).download_status "w"
      = initSys.download_status "w" ∧
    status_route dsNone "w" = "Not started" := by
  refine ⟨queued_never_written.1 [] initSys (Reaches.refl _) "w", ?_, ?_, ?_⟩
  · exact queued_never_written.2.1 [.admission "A" "w" .accepted, .acquire 0]
      (traceEnd [.admission "A" "w" .accepted, .acquire 0]) (.setDownloading 0) _ "w"
      (reaches_traceEnd _ (by decide)) (stepFn_sound_getD (by decide))
      (by decide) (by decide)
  · exact queued_never_written.2.2.1 initSys "A" "w" .accepted _ "w"
      (stepFn_sound_getD (by decide))
  · exact queued_never_written.2.2.2 dsNone "w" rfl

/-- At most one thread for the identifier in a thread list: any two lookups
that both return a thread for wid hit the same index. -/
def UniqueJobL (wid : Wid) (l : List Thread) : Prop :=
  ∀ (i j : Nat) (a b : Thread), l[i]? = some a → l[j]? = some b →
    a.wid = wid → b.wid = wid → i = j

/-- At most one thread for the identifier was ever spawned (finished
threads stay in the list, so this bounds the whole execution so far). -/
def UniqueJob (wid : Wid) (s : Sys) : Prop :=
  UniqueJobL wid s.threads

/-- Replacing an element by one with the same wid reflects uniqueness. -/
lemma uniqueJobL_set {wid : Wid} {l : List Thread} {i0 : Nat} {t0 b0 : Thread}
    (ht : l[i0]? = some t0) (hU : UniqueJobL wid (l.set i0 b0))
    (hw : b0.wid = t0.wid) : UniqueJobL wid l := by
  intro i j a b hi hj ha hb
  have tr : ∀ (x : Nat) (c : Thread), l[x]? = some c →
      ∃ c', (l.set i0 b0)[x]? = some c' ∧ c'.wid = c.wid := by
    intro x c hc
    by_cases hx : x = i0
    · subst hx
      refine ⟨b0, List.getElem?_set_self (lt_length_of_getElem? hc), ?_⟩
      rw [hw, Option.some_inj.mp (hc.symm.trans ht)]
    · exact ⟨c, by rw [List.getElem?_set_ne (fun hh => hx hh.symm)]; exact hc, rfl⟩
  obtain ⟨a', hi', hwa⟩ := tr i a hi
  obtain ⟨b', hj', hwb⟩ := tr j b hj
  exact hU i j a' b' hi' hj' (hwa.trans ha) (hwb.trans hb)

/-- Appending threads reflects uniqueness. -/
lemma uniqueJobL_append {wid : Wid} {l L : List Thread}
    (hU : UniqueJobL wid (l ++ L)) : UniqueJobL wid l := by
  intro i j a b hi hj ha hb
  have hi' : (l ++ L)[i]? = some a := by
    rw [List.getElem?_append, if_pos (lt_length_of_getElem? hi)]; exact hi
  have hj' : (l ++ L)[j]? = some b := by
    rw [List.getElem?_append, if_pos (lt_length_of_getElem? hj)]; exact hj
  exact hU i j a b hi' hj' ha hb

/-- Uniqueness of the job for an identifier is reflected backwards along
any step: threads are only appended, never removed, and pc updates keep the
wid. -/
lemma uniqueJob_back_step {wid : Wid} {s : Sys} {e : Ev} {t : Sys}
    (hstep : Step s e t) (hU : UniqueJob wid t) : UniqueJob wid s := by
  cases hstep with
  | admission ip w h => exact uniqueJobL_append hU
  | acquire i ht hpc hp => exact uniqueJobL_set ht hU rfl
  | setDownloading i ht hpc => exact uniqueJobL_set ht hU rfl
  | finishAlreadyLocal i ht hpc => exact uniqueJobL_set ht hU rfl
  | finishToolFailed i ht hpc => exact uniqueJobL_set ht hU rfl
  | finishNoFiles i ht hpc => exact uniqueJobL_set ht hU rfl
  | finishZipFailed i ht hpc => exact uniqueJobL_set ht hU rfl
  | finishComplete i ht hpc => exact uniqueJobL_set ht hU rfl
  | publishRaise i ht hpc => exact uniqueJobL_set ht hU rfl
  | discardSlot i ht hpc => exact uniqueJobL_set ht hU rfl
  | releasePermit i ht hpc => exact uniqueJobL_set ht hU rfl
  | releasePermitRaised i ht hpc => exact uniqueJobL_set ht hU rfl

/-- Uniqueness is reflected backwards along any execution. -/
lemma uniqueJob_back {wid : Wid} : ∀ {m : Sys} {tr : List Ev} {t : Sys},
    Reaches m tr t → UniqueJob wid t → UniqueJob wid m := by
  intro m tr t h
  induction h with
  | refl s => exact id
  | head hst _ ih => exact fun hU => uniqueJob_back_step hst (ih hU)

/-- A spawned thread means the admission saw no registry entry. -/
lemma add_item_spawn_none (ds : StatusMap) (qs : Queues) (ip : ClientId)
    (wid : Wid) (h : (add_item ds qs ip wid).2.2 = true) : ds wid = none := by
  by_cases h1 : wid = ""
  · simp [add_item, h1] at h
  · rcases h0 : ds wid with _ | v
    · rfl
    · exfalso
      simp only [add_item, if_neg h1] at h
      rw [if_pos (Or.inr (by rw [h0]; rfl))] at h
      simp at h

/-- Thread phases after the terminal status write on the normal path. -/
def settledPC (pc : PC) : Prop :=
  pc = .cleanup ∨ pc = .releasing ∨ pc = .done

/-- Once the job for an identifier is unique and its status is terminal,
every thread for the identifier is past its terminal write: at the discard,
release or finished phase of the normal path. -/
def SettledInv (wid : Wid) (s : Sys) : Prop :=
  UniqueJob wid s →
  (∃ v, s.download_status wid = some v ∧ v ∈ terminalStrings) →
  ∀ (k : Nat) (a : Thread), s.threads[k]? = some a → a.wid = wid →
    settledPC a.pc

lemma settledInv_step (wid : Wid) (s : Sys) (e : Ev) (t : Sys)
    (hV : SettledInv wid s) (hstep : Step s e t) : SettledInv wid t := by
  intro hU hterm k a hk ha
  have hUs : UniqueJob wid s := uniqueJob_back_step hstep hU
  cases hstep with
  | admission ip w h =>
    rename_i sp
    dsimp only at hk
    cases sp
    · rw [if_neg (by simp)] at hk
      simp only [List.append_nil] at hk
      exact hV hUs hterm k a hk ha
    · rw [if_pos rfl] at hk
      rcases getElem?_append_cases hk with hmem | hx
      · exact hV hUs hterm k a hmem ha
      · exfalso
        have hsp : (add_item s.download_status s.user_queues ip w).2.2 = true := by
          rw [h]
        have hnone := add_item_spawn_none _ _ _ _ hsp
        obtain ⟨v, hv, _⟩ := hterm
        replace hv : s.download_status wid = some v := hv
        rw [hx] at ha
        replace ha : w = wid := ha
        rw [ha] at hnone
        rw [hnone] at hv
        cases hv
  | acquire i ht hpc hp =>
    rename_i t0
    dsimp only at hk
    rcases getElem?_set_cases ht hk with ⟨hki, hb⟩ | ⟨hki, hmem⟩
    · exfalso
      subst hb
      have hset := hV hUs hterm i t0 ht ha
      rcases hset with h | h | h <;> rw [hpc] at h <;> cases h
    · exact hV hUs hterm k a hmem ha
  | setDownloading i ht hpc =>
    rename_i t0
    dsimp only at hk
    by_cases hw0 : wid = t0.wid
    · exfalso
      obtain ⟨v, hv, hvt⟩ := hterm
      replace hv : upd s.download_status t0.wid "Downloading..." wid = some v := hv
      rw [hw0, upd_self] at hv
      rw [← Option.some_inj.mp hv] at hvt
      simp [terminalStrings] at hvt
    · rcases getElem?_set_cases ht hk with ⟨hki, hb⟩ | ⟨hki, hmem⟩
      · exfalso
        subst hb
        exact hw0 ha.symm
      · obtain ⟨v, hv, hvt⟩ := hterm
        replace hv : upd s.download_status t0.wid "Downloading..." wid = some v := hv
        rw [upd_other _ hw0] at hv
        exact hV hUs ⟨v, hv, hvt⟩ k a hmem ha
  | finishAlreadyLocal i ht hpc =>
    rename_i t0
    dsimp only at hk
    by_cases hw0 : wid = t0.wid
    · rcases getElem?_set_cases ht hk with ⟨hki, hb⟩ | ⟨hki, hmem⟩
      · subst hb
        exact Or.inl rfl
      · exfalso
        have hbi : (s.threads.set i { t0 with pc := PC.cleanup })[i]? =
            some { t0 with pc := PC.cleanup } :=
          List.getElem?_set_self (lt_length_of_getElem? ht)
        exact hki (hU k i a _ hk hbi ha hw0.symm)
    · rcases getElem?_set_cases ht hk with ⟨hki, hb⟩ | ⟨hki, hmem⟩
      · exfalso
        subst hb
        exact hw0 ha.symm
      · obtain ⟨v, hv, hvt⟩ := hterm
        replace hv : upd s.download_status t0.wid "Already downloaded locally" wid = some v := hv
        rw [upd_other _ hw0] at hv
        exact hV hUs ⟨v, hv, hvt⟩ k a hmem ha
  | finishToolFailed i ht hpc =>
    rename_i t0
    dsimp only at hk
    by_cases hw0 : wid = t0.wid
    · rcases getElem?_set_cases ht hk with ⟨hki, hb⟩ | ⟨hki, hmem⟩
      · subst hb
        exact Or.inl rfl
      · exfalso
        have hbi : (s.threads.set i { t0 with pc := PC.cleanup })[i]? =
            some { t0 with pc := PC.cleanup } :=
          List.getElem?_set_self (lt_length_of_getElem? ht)
        exact hki (hU k i a _ hk hbi ha hw0.symm)
    · rcases getElem?_set_cases ht hk with ⟨hki, hb⟩ | ⟨hki, hmem⟩
      · exfalso
        subst hb
        exact hw0 ha.symm
      · obtain ⟨v, hv, hvt⟩ := hterm
        replace hv : upd s.download_status t0.wid "SteamCMD failed" wid = some v := hv
        rw [upd_other _ hw0] at hv
        exact hV hUs ⟨v, hv, hvt⟩ k a hmem ha
  | finishNoFiles i ht hpc =>
    rename_i t0
    dsimp only at hk
    by_cases hw0 : wid = t0.wid
    · rcases getElem?_set_cases ht hk with ⟨hki, hb⟩ | ⟨hki, hmem⟩
      · subst hb
        exact Or.inl rfl
      · exfalso
        have hbi : (s.threads.set i { t0 with pc := PC.cleanup })[i]? =
            some { t0 with pc := PC.cleanup } :=
          List.getElem?_set_self (lt_length_of_getElem? ht)
        exact hki (hU k i a _ hk hbi ha hw0.symm)
    · rcases getElem?_set_cases ht hk with ⟨hki, hb⟩ | ⟨hki, hmem⟩
      · exfalso
        subst hb
        exact hw0 ha.symm
      · obtain ⟨v, hv, hvt⟩ := hterm
        replace hv : upd s.download_status t0.wid "Failed to find downloaded files" wid = some v := hv
        rw [upd_other _ hw0] at hv
        exact hV hUs ⟨v, hv, hvt⟩ k a hmem ha
  | finishZipFailed i ht hpc =>
    rename_i t0
    dsimp only at hk
    by_cases hw0 : wid = t0.wid
    · rcases getElem?_set_cases ht hk with ⟨hki, hb⟩ | ⟨hki, hmem⟩
      · subst hb
        exact Or.inl rfl
      · exfalso
        have hbi : (s.threads.set i { t0 with pc := PC.cleanup })[i]? =
            some { t0 with pc := PC.cleanup } :=
          List.getElem?_set_self (lt_length_of_getElem? ht)
        exact hki (hU k i a _ hk hbi ha hw0.symm)
    · rcases getElem?_set_cases ht hk with ⟨hki, hb⟩ | ⟨hki, hmem⟩
      · exfalso
        subst hb
        exact hw0 ha.symm
      · obtain ⟨v, hv, hvt⟩ := hterm
        replace hv : upd s.download_status t0.wid "Failed to zip files" wid = some v := hv
        rw [upd_other _ hw0] at hv
        exact hV hUs ⟨v, hv, hvt⟩ k a hmem ha
  | finishComplete i ht hpc =>
    rename_i t0
    dsimp only at hk
    by_cases hw0 : wid = t0.wid
    · rcases getElem?_set_cases ht hk with ⟨hki, hb⟩ | ⟨hki, hmem⟩
      · subst hb
        exact Or.inl rfl
      · exfalso
        have hbi : (s.threads.set i { t0 with pc := PC.cleanup })[i]? =
            some { t0 with pc := PC.cleanup } :=
          List.getElem?_set_self (lt_length_of_getElem? ht)
        exact hki (hU k i a _ hk hbi ha hw0.symm)
    · rcases getElem?_set_cases ht hk with ⟨hki, hb⟩ | ⟨hki, hmem⟩
      · exfalso
        subst hb
        exact hw0 ha.symm
      · obtain ⟨v, hv, hvt⟩ := hterm
        replace hv : upd s.download_status t0.wid "Download complete" wid = some v := hv
        rw [upd_other _ hw0] at hv
        exact hV hUs ⟨v, hv, hvt⟩ k a hmem ha
  | publishRaise i ht hpc =>
    rename_i t0
    dsimp only at hk
    rcases getElem?_set_cases ht hk with ⟨hki, hb⟩ | ⟨hki, hmem⟩
    · exfalso
      subst hb
      have hset := hV hUs hterm i t0 ht ha
      rcases hset with h | h | h <;> rw [hpc] at h <;> cases h
    · exact hV hUs hterm k a hmem ha
  | discardSlot i ht hpc =>
    rename_i t0
    dsimp only at hk
    rcases getElem?_set_cases ht hk with ⟨hki, hb⟩ | ⟨hki, hmem⟩
    · subst hb
      exact Or.inr (Or.inl rfl)
    · exact hV hUs hterm k a hmem ha
  | releasePermit i ht hpc =>
    rename_i t0
    dsimp only at hk
    rcases getElem?_set_cases ht hk with ⟨hki, hb⟩ | ⟨hki, hmem⟩
    · subst hb
      exact Or.inr (Or.inr rfl)
    · exact hV hUs hterm k a hmem ha
  | releasePermitRaised i ht hpc =>
    rename_i t0
    dsimp only at hk
    rcases getElem?_set_cases ht hk with ⟨hki, hb⟩ | ⟨hki, hmem⟩
    · exfalso
      subst hb
      have hset := hV hUs hterm i t0 ht ha
      rcases hset with h | h | h <;> rw [hpc] at h <;> cases h
    · exact hV hUs hterm k a hmem ha

/-- One step cannot change a terminal status of an identifier whose job is
unique: the only writers are threads for the identifier, and they are all
past their writes. -/
lemma status_freeze_step {wid : Wid} {s : Sys} {e : Ev} {t : Sys} {v : String}
    (hstep : Step s e t) (hU : UniqueJob wid t) (hV : SettledInv wid s)
    (hsv : s.download_status wid = some v) (hvt : v ∈ terminalStrings) :
    t.download_status wid = some v := by
  have hUs : UniqueJob wid s := uniqueJob_back_step hstep hU
  have hterm : ∃ v0, s.download_status wid = some v0 ∧ v0 ∈ terminalStrings :=
    ⟨v, hsv, hvt⟩
  cases hstep with
  | admission ip w h => exact hsv
  | acquire i ht hpc hp => exact hsv
  | setDownloading i ht hpc =>
    rename_i t0
    by_cases hw0 : wid = t0.wid
    · exfalso
      have hset := hV hUs hterm i t0 ht hw0.symm
      rcases hset with h | h | h <;> rw [hpc] at h <;> cases h
    · show upd s.download_status t0.wid "Downloading..." wid = some v
      rw [upd_other _ hw0]; exact hsv
  | finishAlreadyLocal i ht hpc =>
    rename_i t0
    by_cases hw0 : wid = t0.wid
    · exfalso
      have hset := hV hUs hterm i t0 ht hw0.symm
      rcases hset with h | h | h <;> rw [hpc] at h <;> cases h
    · show upd s.download_status t0.wid "Already downloaded locally" wid = some v
      rw [upd_other _ hw0]; exact hsv
  | finishToolFailed i ht hpc =>
    rename_i t0
    by_cases hw0 : wid = t0.wid
    · exfalso
      have hset := hV hUs hterm i t0 ht hw0.symm
      rcases hset with h | h | h <;> rw [hpc] at h <;> cases h
    · show upd s.download_status t0.wid "SteamCMD failed" wid = some v
      rw [upd_other _ hw0]; exact hsv
  | finishNoFiles i ht hpc =>
    rename_i t0
    by_cases hw0 : wid = t0.wid
    · exfalso
      have hset := hV hUs hterm i t0 ht hw0.symm
      rcases hset with h | h | h <;> rw [hpc] at h <;> cases h
    · show upd s.download_status t0.wid "Failed to find downloaded files" wid = some v
      rw [upd_other _ hw0]; exact hsv
  | finishZipFailed i ht hpc =>
    rename_i t0
    by_cases hw0 : wid = t0.wid
    · exfalso
      have hset := hV hUs hterm i t0 ht hw0.symm
      rcases hset with h | h | h <;> rw [hpc] at h <;> cases h
    · show upd s.download_status t0.wid "Failed to zip files" wid = some v
      rw [upd_other _ hw0]; exact hsv
  | finishComplete i ht hpc =>
    rename_i t0
    by_cases hw0 : wid = t0.wid
    · exfalso
      have hset := hV hUs hterm i t0 ht hw0.symm
      rcases hset with h | h | h <;> rw [hpc] at h <;> cases h
    · show upd s.download_status t0.wid "Download complete" wid = some v
      rw [upd_other _ hw0]; exact hsv
  | publishRaise i ht hpc => exact hsv
  | discardSlot i ht hpc => exact hsv
  | releasePermit i ht hpc => exact hsv
  | releasePermitRaised i ht hpc => exact hsv

/-- SettledInv holds initially: there is no registry entry at all. -/
lemma settledInv_init (wid : Wid) : SettledInv wid initSys := by
  intro _ hterm k a _ _
  exfalso
  obtain ⟨v, hv, _⟩ := hterm
  exact absurd hv (by simp [initSys])

/-- SettledInv holds at every reachable state. -/
lemma settledInv_reaches (wid : Wid) {tr : List Ev} {s : Sys}
    (h : Reaches initSys tr s) : SettledInv wid s :=
  reaches_invariant (SettledInv wid) (settledInv_step wid) h (settledInv_init wid)

/-- A terminal status of a unique job never changes along an execution. -/
lemma status_freeze_reaches {wid : Wid} {v : String} :
    ∀ {m : Sys} {tr : List Ev} {t : Sys}, Reaches m tr t →
    SettledInv wid m → UniqueJob wid t →
    m.download_status wid = some v → v ∈ terminalStrings →
    t.download_status wid = some v := by
  intro m tr t h
  induction h with
  | refl s => intro _ _ hm _; exact hm
  | head hst rest ih =>
    intro hV hU hm hvt
    have hm1 := status_freeze_step hst (uniqueJob_back rest hU) hV hm hvt
    exact ih (settledInv_step _ _ _ _ hV hst) hU hm1 hvt

/-- Interleaving for C8: "A" and "B" both get "w" accepted (the dedup race
of C1); the job of "A" runs to the terminal "Already downloaded locally";
the duplicate job of "B" then acquires a permit and writes "Downloading...",
regressing the terminal status. -/
def trTerminalFirst : List Ev :=
  [.admission "A" "w" .accepted, .admission "B" "w" .accepted,
   .acquire 0, .setDownloading 0, .finishAlreadyLocal 0]

/-- Continuation of trTerminalFirst: the duplicate thread steps. -/
def trRegress : List Ev := [.acquire 1, .setDownloading 1]

/-- Claim C8 as stated: once the registry holds a terminal status for an
identifier, no later reachable state shows "Downloading..." for it (the
lifecycle never regresses). -/
def ClaimC8 : Prop :=
  ∀ (tr1 : List Ev) (m : Sys) (tr2 : List Ev) (t : Sys) (wid : Wid)
    (v : String),
    Reaches initSys tr1 m → Reaches m tr2 t →
    m.download_status wid = some v → v ∈ terminalStrings →
    t.download_status wid ≠ some "Downloading..."

/-- C8 fails on the code: a duplicate job admitted through the C1 race
rewrites the identifier's terminal status back to "Downloading...". -/
theorem claimC8_false : ¬ ClaimC8 := by
  intro h
  exact h trTerminalFirst (traceEnd trTerminalFirst) trRegress
    (runEnd (traceEnd trTerminalFirst) trRegress) "w" "Already downloaded locally"
    (reaches_traceEnd _ (by decide))
    (reaches_runEnd _ _ (by decide))
    (by decide) (by decide) (by decide)

/-- C8 amended: as long as at most one job for the identifier was ever
spawned (no duplicate admission through the race of C1), a terminal status
is final — every later reachable state shows the same status, so the
lifecycle of a uniquely-admitted identifier is monotone: absent, then
"Downloading..." (by queued_never_written the first entry), then one
terminal string, which never changes.  Regression is possible exactly when a
second job for the identifier exists, as claimC8_false shows. -/
theorem terminal_status_stable (tr1 : List Ev) (m : Sys) (tr2 : List Ev)
    (t : Sys) (wid : Wid) (v : String)
    (h1 : Reaches initSys tr1 m) (h2 : Reaches m tr2 t)
    (hU : UniqueJob wid t) (hm : m.download_status wid = some v)
    (hv : v ∈ terminalStrings) : t.download_status wid = some v :=
  status_freeze_reaches h2 (settledInv_reaches wid h1) hU hm hv

/-- A state whose thread list is a singleton has a unique job for every
identifier. -/
lemma uniqueJob_of_singleton (wid : Wid) (s : Sys) (th : Thread)
    (h : s.threads = [th]) : UniqueJob wid s := by
  intro i j a b hi hj _ _
  rw [h] at hi hj
  have hi0 : i = 0 := by
    cases i with
    | zero => rfl
    | succ n => simp at hi
  have hj0 : j = 0 := by
    cases j with
    | zero => rfl
    | succ n => simp at hj
  rw [hi0, hj0]

/-- Interleaving for the C8 witness: a single job for "w" reaches the
terminal "Already downloaded locally". -/
def trSingleTerminal : List Ev :=
  [.admission "A" "w" .accepted, .acquire 0, .setDownloading 0,
   .finishAlreadyLocal 0]

/-- Continuation of trSingleTerminal: the job runs its cleanup. -/
def trSingleCleanup : List Ev := [.discardSlot 0]

/-- Witness: with a single job for "w", its terminal status survives the
later steps of the execution. -/
theorem terminal_status_stable_witness :
    (runEnd (traceEnd trSingleTerminal) trSingleCleanup).download_status "w" =
      some "Already downloaded locally" :=
  terminal_status_stable trSingleTerminal (traceEnd trSingleTerminal)
    trSingleCleanup (runEnd (traceEnd trSingleTerminal) trSingleCleanup)
    "w" "Already downloaded locally"
    (reaches_traceEnd _ (by decide))
    (reaches_runEnd _ _ (by decide))
    (uniqueJob_of_singleton "w" _ ⟨"w", "A", .releasing⟩ (by decide))
    (by decide) (by decide)
